import Mathlib

/-!
Verification of the geospatial orchestration layer of the forest-dashboard
client: the viewport-derived query builder, species grouping and filtering,
cadastre layer assembly, visibility reconciliation and the auth service, as a
shallow embedding in Lean 4. JavaScript numbers are modelled as rationals,
optional object fields as Option, JS Set of strings as Finset String, and
asynchronous fetch outcomes as explicit result values.
-/

namespace Geo

/-- Coordinates of the center handed to calculateBoundingBox. -/
structure LatLng where
  lat : ℚ
  lng : ℚ
deriving DecidableEq

/-- Bounding box in the order west, south, east, north, as the array
returned by calculateBoundingBox and stored in the query bbox. -/
structure BBox where
  west : ℚ
  south : ℚ
  east : ℚ
  north : ℚ
deriving DecidableEq

/-- Map view state: center coordinates, zoom, bearing, pitch. -/
structure MapViewState where
  latitude : ℚ
  longitude : ℚ
  zoom : ℚ
  bearing : ℚ
  pitch : ℚ
deriving DecidableEq

/-- UI filter state: administrative selection, selected species ids
(absent field modelled as none), cadastre toggle. -/
structure MapFilters where
  region : Option String := none
  department : Option String := none
  commune : Option String := none
  treeSpecies : Option (List String) := none
  showCadastre : Bool := false
deriving DecidableEq

/-- Query object derived from the debounced viewport and filters. -/
structure GeospatialQuery where
  bbox : Option BBox := none
  zoom : ℤ
  filters : Option MapFilters := none
  limit : Option ℕ := none
  page : Option ℕ := none
deriving DecidableEq

/-- Embedding of calculateBoundingBox from lib/mapUtils.ts: a window around
the center whose half-extents are 0.01 (latitude) and 0.015 (longitude)
scaled by 2 to the power (14 - zoom), returned as west, south, east, north.
The zoom argument is the integer zoom bucket. -/
def calculateBoundingBox (center : LatLng) (zoom : ℤ) : BBox :=
  let zoomFactor : ℚ := (2 : ℚ) ^ (14 - zoom)
  let deltaLat : ℚ := 1/100 * zoomFactor
  let deltaLng : ℚ := 15/1000 * zoomFactor
  { west := center.lng - deltaLng
    south := center.lat - deltaLat
    east := center.lng + deltaLng
    north := center.lat + deltaLat }

/-- Embedding of the geoQuery useMemo in hooks/useGeoLayers.ts: zoom is the
rounded debounced zoom, bbox is a fixed half-degree window around the
debounced center, filters are the current filters with treeSpecies erased,
and the limit is 100. -/
def buildGeoQuery (debouncedViewState : MapViewState) (filters : MapFilters) :
    GeospatialQuery :=
  { zoom := round debouncedViewState.zoom
    bbox := some
      { west := debouncedViewState.longitude - 1/2
        south := debouncedViewState.latitude - 1/2
        east := debouncedViewState.longitude + 1/2
        north := debouncedViewState.latitude + 1/2 }
    filters := some { filters with treeSpecies := none }
    limit := some 100
    page := none }

/-- Cache key of the forest query in hooks/useGeoLayers.ts: the two string
tags and the query object with treeSpecies erased from its filters again. -/
structure ForestQueryKey where
  scope : String
  kind : String
  query : GeospatialQuery
deriving DecidableEq

/-- Embedding of the forest queryKey array: the geoQuery spread with
filters.treeSpecies set to undefined. -/
def forestQueryKey (debouncedViewState : MapViewState) (filters : MapFilters) :
    ForestQueryKey :=
  let geoQuery := buildGeoQuery debouncedViewState filters
  { scope := "geoLayers"
    kind := "forest"
    query :=
      { geoQuery with
        filters := geoQuery.filters.map (fun f => { f with treeSpecies := none }) } }

/-- Embedding of the species request parameter computed inside getForestData
in the geo service: the first element of query.filters.treeSpecies, with an
empty string collapsing to no parameter because of JS truthiness. -/
def forestRequestSpecies (query : GeospatialQuery) : Option String :=
  match query.filters.bind (fun f => f.treeSpecies.bind List.head?) with
  | none => none
  | some s => if s = "" then none else some s

/-- Whitespace test of the JS regular expression class backslash-s: ASCII
whitespace plus the Unicode space separators it names. -/
def jsIsSpace (c : Char) : Bool :=
  decide (c.toNat = 32) || decide (c.toNat = 9) || decide (c.toNat = 10) ||
  decide (c.toNat = 13) || decide (c.toNat = 11) || decide (c.toNat = 12) ||
  decide (c.toNat = 0xA0) || decide (c.toNat = 0x1680) ||
  (decide (0x2000 ≤ c.toNat) && decide (c.toNat ≤ 0x200A)) ||
  decide (c.toNat = 0x2028) || decide (c.toNat = 0x2029) ||
  decide (c.toNat = 0x202F) || decide (c.toNat = 0x205F) ||
  decide (c.toNat = 0x3000) || decide (c.toNat = 0xFEFF)

/-- Character class kept by the regular expression replace that strips
everything outside lowercase letters, digits and underscore. -/
def isIdChar (c : Char) : Bool :=
  (decide (97 ≤ c.toNat) && decide (c.toNat ≤ 122)) ||
  (decide (48 ≤ c.toNat) && decide (c.toNat ≤ 57)) ||
  decide (c.toNat = 95)

/-- Lowercasing of one character as JS toLowerCase acts on the ASCII range:
uppercase letters move down by 32, all other characters are unchanged. -/
def jsToLowerChar (c : Char) : Char :=
  if 65 ≤ c.toNat ∧ c.toNat ≤ 90 then Char.ofNat (c.toNat + 32) else c

/-- Global replacement of each maximal run of characters satisfying p by the
single character rep, the effect of a global regex replace of a one-class
plus pattern. The boolean state records being inside a run. -/
def collapseRunsAux (p : Char → Bool) (rep : Char) :
    List Char → Bool → List Char
  | [], _ => []
  | c :: rest, inRun =>
    if p c then
      if inRun then collapseRunsAux p rep rest true
      else rep :: collapseRunsAux p rep rest true
    else c :: collapseRunsAux p rep rest false

/-- Run replacement starting outside a run. -/
def collapseRuns (p : Char → Bool) (rep : Char) (l : List Char) : List Char :=
  collapseRunsAux p rep l false

/-- Removal of a single leading underscore, half of the edge-trimming regex
replace of normalizeSpeciesToId. -/
def dropLeadingUnderscore (l : List Char) : List Char :=
  match l with
  | [] => []
  | c :: rest => if c = '_' then rest else c :: rest

/-- Removal of a single trailing underscore, the other half of the
edge-trimming regex replace. -/
def dropTrailingUnderscore (l : List Char) : List Char :=
  (dropLeadingUnderscore l.reverse).reverse

/-- Character-list pipeline of normalizeSpeciesToId from the geo service:
lowercase, whitespace runs to underscore, strip characters outside the id
class, collapse underscore runs, trim one underscore at each edge. -/
def normalizeChars (l : List Char) : List Char :=
  dropTrailingUnderscore (dropLeadingUnderscore (
    collapseRuns (fun c => c == '_') '_' (
      (collapseRuns jsIsSpace '_' (l.map jsToLowerChar)).filter isIdChar)))

/-- Embedding of normalizeSpeciesToId on strings. -/
def normalizeSpeciesToId (s : String) : String :=
  ⟨normalizeChars s.data⟩

/-- Properties object of a GeoJSON feature, restricted to the keys the
orchestration layer reads or writes; absent keys are none. -/
structure GeoProps where
  species : Option String := none
  commonName : Option String := none
  id : Option String := none
  type : Option String := none
  parcelNumber : Option String := none
  area : Option ℚ := none
  landUse : Option String := none
  owner : Option String := none
deriving DecidableEq

/-- Geometry payload, carried through untouched: polygon rings of
coordinate pairs. -/
abbrev Geometry := List (List (ℚ × ℚ))

/-- GeoJSON feature: a type tag, an optional properties object and a
geometry. -/
structure Feature where
  type : String := "Feature"
  properties : Option GeoProps := none
  geometry : Geometry := []
deriving DecidableEq

/-- GeoJSON feature collection. -/
structure FeatureCollection where
  type : String := "FeatureCollection"
  features : List Feature := []
deriving DecidableEq

/-- Forest layer record as assembled by getForestLayers. -/
structure ForestLayer where
  id : String
  name : String
  type : String
  visible : Bool
  opacity : ℚ
  species : Option String := none
  geoData : FeatureCollection
deriving DecidableEq

/-- Cadastre layer record as assembled by getCadastreLayers. -/
structure CadastreLayer where
  id : String
  name : String
  type : String
  visible : Bool
  opacity : ℚ
  commune : Option String := none
  geoData : FeatureCollection
deriving DecidableEq

/-- Grouping key of a feature in getForestLayers: the species property with
JS optional chaining and truthiness, so a missing properties object, a
missing species key or an empty species string all fall into the unknown
bucket. -/
def speciesKey (f : Feature) : String :=
  match f.properties with
  | none => "unknown"
  | some p =>
    match p.species with
    | none => "unknown"
    | some s => if s = "" then "unknown" else s

/-- One step of filling the insertion-ordered species map: push the feature
onto the entry of its key, or append a fresh singleton entry at the end. -/
def insertFeature (m : List (String × List Feature)) (k : String)
    (f : Feature) : List (String × List Feature) :=
  match m with
  | [] => [(k, [f])]
  | (k1, fs) :: rest =>
    if k1 = k then (k1, fs ++ [f]) :: rest
    else (k1, fs) :: insertFeature rest k f

/-- Embedding of the Map-building forEach of getForestLayers: fold the
features into an insertion-ordered association list keyed by species. -/
def groupBySpecies (features : List Feature) : List (String × List Feature) :=
  features.foldl (fun m f => insertFeature m (speciesKey f) f) []

/-- Layer construction for one species group in getForestLayers: the name is
the first feature's commonName with the raw species label as JS-falsy
fallback, the id is forest- prefixed to the normalized species id, opacity
is 0.7 and the layer is visible by default. -/
def mkForestLayer (speciesName : String) (features : List Feature) :
    ForestLayer :=
  let commonName :=
    match features.head? with
    | some f =>
      match f.properties with
      | some p =>
        match p.commonName with
        | some cn => if cn = "" then speciesName else cn
        | none => speciesName
      | none => speciesName
    | none => speciesName
  let speciesId := normalizeSpeciesToId speciesName
  { id := "forest-" ++ speciesId
    name := commonName
    type := "forest"
    visible := true
    opacity := 7/10
    species := some speciesId
    geoData := { type := "FeatureCollection", features := features } }

/-- Embedding of getForestLayers applied to an already fetched feature list:
one layer per entry of the insertion-ordered species map. -/
def getForestLayers (features : List Feature) : List ForestLayer :=
  (groupBySpecies features).map (fun e => mkForestLayer e.1 e.2)

/-- First-encounter-order deduplication with an accumulator of already seen
keys, describing the key order of a JS Map filled by iteration. -/
def seenDedup (seen : List String) : List String → List String
  | [] => []
  | k :: rest =>
    if k ∈ seen then seenDedup seen rest
    else k :: seenDedup (seen ++ [k]) rest

/-- First-encounter-order deduplication of a key list. -/
def firstDedup (l : List String) : List String :=
  seenDedup [] l

/-- Embedding of the filteredForestLayers useMemo in hooks/useGeoLayers.ts:
an absent or empty selection passes every layer through, a non-empty
selection keeps the layers whose species id (missing species read as the
empty string by JS truthiness) is selected. -/
def filteredForestLayers (forestLayers : List ForestLayer)
    (treeSpecies : Option (List String)) : List ForestLayer :=
  match treeSpecies with
  | none => forestLayers
  | some sel =>
    if sel.length = 0 then forestLayers
    else forestLayers.filter (fun l => decide ((l.species.getD "") ∈ sel))

/-- Cadastral parcel record as fetched by getCadastreData. -/
structure CadastreParcel where
  id : String
  reference : String
  geometry : Geometry
  area : ℚ
  owner : Option String := none
  landUse : String
deriving DecidableEq

/-- One-to-one parcel conversion inside getCadastreLayers: a feature whose
properties carry the parcel id, the cadastre type tag, the reference as
parcelNumber, the area, the land use and the owner, and whose geometry is
the parcel polygon. -/
def parcelToFeature (parcel : CadastreParcel) : Feature :=
  { type := "Feature"
    properties := some
      { id := some parcel.id
        type := some "cadastre"
        parcelNumber := some parcel.reference
        area := some parcel.area
        landUse := some parcel.landUse
        owner := parcel.owner }
    geometry := parcel.geometry }

/-- Embedding of getCadastreLayers applied to already fetched parcels: an
empty fetch yields no layer at all, otherwise a single layer with the fixed
id, opacity 0.4 and the commune taken from the query filters. -/
def getCadastreLayers (cadastreData : List CadastreParcel)
    (query : GeospatialQuery) : List CadastreLayer :=
  let features := cadastreData.map parcelToFeature
  if features.length = 0 then []
  else
    [{ id := "cadastre-parcels"
       name := "Cadastral parcels"
       type := "cadastre"
       visible := true
       opacity := 4/10
       commune := query.filters.bind (fun f => f.commune)
       geoData := { type := "FeatureCollection", features := features } }]

/-- Outcome of an awaited HTTP call: a value, or a raised error caught by
the surrounding try block. -/
inductive FetchOutcome (α : Type) where
  | ok (value : α)
  | err (message : String)
deriving DecidableEq

/-- Raw body of the forest endpoint response: the features key may be
absent. An absent body is modelled as none at the use site. -/
structure RawForestBody where
  type : String := "FeatureCollection"
  features : Option (List Feature) := none
deriving DecidableEq

/-- Empty feature collection returned by the failure path of
getForestData. -/
def emptyFeatureCollection : FeatureCollection :=
  { type := "FeatureCollection", features := [] }

/-- Embedding of getForestData over the upstream response: a transport
error, an absent body or a body without a features key all resolve to the
empty feature collection through the catch block; a well-formed body is
returned as is. The function is total, so no exception reaches the
caller. -/
def getForestData (response : FetchOutcome (Option RawForestBody)) :
    FeatureCollection :=
  match response with
  | .err _ => emptyFeatureCollection
  | .ok none => emptyFeatureCollection
  | .ok (some body) =>
    match body.features with
    | none => emptyFeatureCollection
    | some fs => { type := body.type, features := fs }

/-- Embedding of the visibility sync effect of hooks/useMapsPage.ts: if the
tracked set already equals the fetched id set the state is kept, otherwise
every fetched id missing from the tracked set is added and every tracked id
missing from the fetch is removed. -/
def reconcileVisibleIds (prev fetchedIds : Finset String) : Finset String :=
  if prev = fetchedIds then prev
  else
    (prev ∪ fetchedIds.filter (fun i => i ∉ prev)).filter
      (fun i => i ∈ fetchedIds)

/-- Embedding of toggleLayer of hooks/useMapsPage.ts: delete the id when
present, insert it when absent. -/
def toggleLayer (visibleLayerIds : Finset String) (layerId : String) :
    Finset String :=
  if layerId ∈ visibleLayerIds then visibleLayerIds.erase layerId
  else insert layerId visibleLayerIds

/-- Credentials accepted by the register service, as the RegisterCredentials
type declares them: name, email and password. -/
structure RegisterCredentials where
  name : String
  email : String
  password : String
deriving DecidableEq

/-- Body literal actually posted by register in services/authService.ts: it
holds only the email and password fields. -/
structure RegisterBody where
  email : String
  password : String
deriving DecidableEq

/-- Embedding of the request issued by register: the endpoint path paired
with the posted body built from the credentials. -/
def registerRequest (credentials : RegisterCredentials) :
    String × RegisterBody :=
  ("/auth/register",
    { email := credentials.email, password := credentials.password })

/-- Success path of register: the backend response data is returned
unchanged. -/
structure RegisterResponse where
  userId : String
  message : String
deriving DecidableEq

/-- Embedding of the success branch of register: the awaited response data
object is handed back to the caller as is. -/
def registerResult (responseData : RegisterResponse) : RegisterResponse :=
  responseData

/-- Feature list of the three-feature grouping example: two Quercus robur
features and one Fagus sylvatica feature. -/
def exampleForestFeatures : List Feature :=
  [ { type := "Feature"
      properties := some
        { species := some "Quercus robur", commonName := some "Chêne pédonculé" }
      geometry := [] }
  , { type := "Feature"
      properties := some
        { species := some "Quercus robur", commonName := some "Chêne pédonculé" }
      geometry := [[(1, 1)]] }
  , { type := "Feature"
      properties := some
        { species := some "Fagus sylvatica", commonName := some "Hêtre commun" }
      geometry := [] } ]

/-- Predicate used to state that no two adjacent characters of a list both
satisfy p; it describes the shape of a list after run collapsing. -/
def noTwoAdjacent (p : Char → Bool) : List Char → Prop
  | [] => True
  | [_] => True
  | a :: b :: rest => ¬(p a = true ∧ p b = true) ∧ noTwoAdjacent p (b :: rest)

/-- One entry of the species map extended by the features of a suffix that
match its key, used to state the grouping invariant. -/
def addMatches (fs : List Feature) (e : String × List Feature) :
    String × List Feature :=
  (e.1, e.2 ++ fs.filter (fun f => decide (speciesKey f = e.1)))

/-- Sample viewport used by witnesses. -/
def sampleView : MapViewState :=
  { latitude := 46, longitude := 2, zoom := 6, bearing := 0, pitch := 0 }

/-- Sample query used by witnesses. -/
def sampleQuery : GeospatialQuery :=
  { zoom := 14 }

/-- Sample parcel used by witnesses. -/
def sampleParcel : CadastreParcel :=
  { id := "parcel_1", reference := "AB0123",
    geometry := [[(231/100, 4631/100)]], area := 5/2, landUse := "Forêt" }

/-- Sample forest layer for the quercus species, used by witnesses. -/
def sampleLayerQuercus : ForestLayer :=
  { id := "forest-quercus_robur", name := "Chêne pédonculé", type := "forest",
    visible := true, opacity := 7/10, species := some "quercus_robur",
    geoData := {} }

/-- Sample forest layer for the fagus species, used by witnesses. -/
def sampleLayerFagus : ForestLayer :=
  { id := "forest-fagus_sylvatica", name := "Hêtre commun", type := "forest",
    visible := true, opacity := 7/10, species := some "fagus_sylvatica",
    geoData := {} }

/-- Sample malformed response body without a features key, used by
witnesses. -/
def sampleRawBodyNoFeatures : RawForestBody :=
  { type := "FeatureCollection", features := none }


/-- Claim C1, counterexample: at the viewport centered on the origin with
zoom 14, the bbox the query builder produces, a fixed half-degree window, is
not the window of calculateBoundingBox whose half-extents are 0.01 and 0.015
scaled by 2 to the power (14 - zoom): the query builder never calls
calculateBoundingBox. -/
theorem geoQuery_bbox_not_zoom_scaled :
    (buildGeoQuery { latitude := 0, longitude := 0, zoom := 14, bearing := 0, pitch := 0 } {}).bbox ≠
      some (calculateBoundingBox { lat := 0, lng := 0 } 14) := by
  simp only [buildGeoQuery, calculateBoundingBox, ne_eq, Option.some.injEq,
    BBox.mk.injEq, not_and]
  norm_num

/-- Claim C1, amended: for every debounced viewport and filter state, the
bbox of the query produced by the query builder is the fixed window of half
a degree in each direction around the viewport center, in the order west,
south, east, north, independent of zoom. -/
theorem geoQuery_bbox_fixed_window (v : MapViewState) (f : MapFilters) :
    (buildGeoQuery v f).bbox =
      some { west := v.longitude - 1/2, south := v.latitude - 1/2,
             east := v.longitude + 1/2, north := v.latitude + 1/2 } := rfl

/-- Claim C2: the query handed to the forest fetch carries no species
filter (its treeSpecies field is none and the species request parameter is
absent), and two filter states that differ only in treeSpecies produce the
same query and the same forest cache key, so toggling species selection
never changes the key driving a re-fetch. -/
theorem forest_query_excludes_species (v : MapViewState) (f1 f2 : MapFilters)
    (hr : f1.region = f2.region) (hd : f1.department = f2.department)
    (hc : f1.commune = f2.commune) (hs : f1.showCadastre = f2.showCadastre) :
    (buildGeoQuery v f1).filters.map MapFilters.treeSpecies = some none ∧
    forestRequestSpecies (buildGeoQuery v f1) = none ∧
    buildGeoQuery v f1 = buildGeoQuery v f2 ∧
    forestQueryKey v f1 = forestQueryKey v f2 := by
  obtain ⟨r1, d1, c1, t1, s1⟩ := f1
  obtain ⟨r2, d2, c2, t2, s2⟩ := f2
  simp only [MapFilters.region, MapFilters.department, MapFilters.commune,
    MapFilters.showCadastre] at hr hd hc hs
  subst hr hd hc hs
  refine ⟨rfl, rfl, rfl, rfl⟩

theorem forest_query_excludes_species_witness :
    (buildGeoQuery sampleView { treeSpecies := some ["quercus_robur"] }).filters.map
        MapFilters.treeSpecies = some none ∧
    forestRequestSpecies (buildGeoQuery sampleView { treeSpecies := some ["quercus_robur"] }) = none ∧
    buildGeoQuery sampleView { treeSpecies := some ["quercus_robur"] } = buildGeoQuery sampleView {} ∧
    forestQueryKey sampleView { treeSpecies := some ["quercus_robur"] } = forestQueryKey sampleView {} :=
  forest_query_excludes_species sampleView
    { treeSpecies := some ["quercus_robur"] } {} rfl rfl rfl rfl

/-- Claim C3, counterexample: a previous fetch returned layer ids a and b
and the user hid b, so the tracked visible set is the singleton of a; a
refresh returns the same two ids, and reconciliation re-adds b as visible.
The id b is present both before and after the refresh, yet its hide toggle
is reset, contrary to the claim that a fetch refresh never resets a hide
toggle for an id present in both fetches. -/
theorem reconcile_resets_hidden_layer :
    "b" ∉ ({"a"} : Finset String) ∧
    "b" ∈ ({"a", "b"} : Finset String) ∧
    "b" ∈ reconcileVisibleIds {"a"} {"a", "b"} := by decide

/-- Claim C3, amended: reconciliation adds every fetched id not already
tracked, removes every tracked id absent from the fetch and keeps every
tracked id still fetched, so the reconciled set is exactly the fetched id
set; in particular tracked ab with fetched bc reconciles to bc. Because the
tracked set holds only the visible ids, an id the user hid is re-added as
visible whenever it is still fetched, so hide toggles do not survive a
refresh. -/
theorem reconcile_tracks_fetched_ids (prev fetchedIds : Finset String) :
    (∀ x ∈ fetchedIds, x ∈ reconcileVisibleIds prev fetchedIds) ∧
    (∀ x ∈ prev, x ∉ fetchedIds → x ∉ reconcileVisibleIds prev fetchedIds) ∧
    (∀ x ∈ prev, x ∈ fetchedIds → x ∈ reconcileVisibleIds prev fetchedIds) ∧
    reconcileVisibleIds prev fetchedIds = fetchedIds ∧
    reconcileVisibleIds {"A", "B"} {"B", "C"} = {"B", "C"} := by
  have h : reconcileVisibleIds prev fetchedIds = fetchedIds := by
    unfold reconcileVisibleIds
    split
    · assumption
    · ext x
      simp only [Finset.mem_filter, Finset.mem_union]
      constructor
      · rintro ⟨_, hx⟩; exact hx
      · intro hx
        by_cases hp : x ∈ prev
        · exact ⟨Or.inl hp, hx⟩
        · exact ⟨Or.inr ⟨hx, hp⟩, hx⟩
  refine ⟨fun x hx => by rw [h]; exact hx,
    fun x hp hnx => by rw [h]; exact hnx,
    fun x hp hx => by rw [h]; exact hx, h, by decide⟩

theorem reconcile_tracks_fetched_ids_witness :
    ("C" ∈ ({"B", "C"} : Finset String) ∧
      "C" ∈ reconcileVisibleIds {"A", "B"} {"B", "C"}) ∧
    ("A" ∈ ({"A", "B"} : Finset String) ∧ "A" ∉ ({"B", "C"} : Finset String) ∧
      "A" ∉ reconcileVisibleIds {"A", "B"} {"B", "C"}) ∧
    reconcileVisibleIds {"A", "B"} {"B", "C"} = {"B", "C"} :=
  ⟨⟨by decide, (reconcile_tracks_fetched_ids {"A", "B"} {"B", "C"}).1 "C" (by decide)⟩,
   ⟨by decide, by decide,
    (reconcile_tracks_fetched_ids {"A", "B"} {"B", "C"}).2.1 "A" (by decide) (by decide)⟩,
   (reconcile_tracks_fetched_ids {"A", "B"} {"B", "C"}).2.2.2.1⟩

/-- Claim C6: client-side species filtering is the identity when the
selection is absent or empty, and with a non-empty selection it keeps
exactly the layers whose species id is a member of the selection. -/
theorem filteredForestLayers_spec (layers : List ForestLayer) :
    filteredForestLayers layers none = layers ∧
    filteredForestLayers layers (some []) = layers ∧
    (∀ sel : List String, sel ≠ [] →
      ∀ l, l ∈ filteredForestLayers layers (some sel) ↔
        l ∈ layers ∧ l.species.getD "" ∈ sel) := by
  refine ⟨rfl, rfl, ?_⟩
  intro sel hsel l
  have hlen : sel.length ≠ 0 := by simpa [List.length_eq_zero] using hsel
  simp [filteredForestLayers, hlen, List.mem_filter]

theorem filteredForestLayers_spec_witness :
    ((["quercus_robur"] : List String) ≠ []) ∧
    (sampleLayerQuercus ∈
        filteredForestLayers [sampleLayerQuercus, sampleLayerFagus]
          (some ["quercus_robur"]) ↔
      sampleLayerQuercus ∈ [sampleLayerQuercus, sampleLayerFagus] ∧
        sampleLayerQuercus.species.getD "" ∈ ["quercus_robur"]) :=
  ⟨by decide,
   (filteredForestLayers_spec [sampleLayerQuercus, sampleLayerFagus]).2.2
     ["quercus_robur"] (by decide) sampleLayerQuercus⟩

/-- Claim C7: cadastre layer assembly returns the empty list when no
parcel was fetched, and otherwise exactly one CadastreLayer with the fixed
id cadastre-parcels and opacity 0.4 whose collection holds one feature per
parcel, each carrying id, the cadastre type tag, parcelNumber, area,
landUse and owner as properties. -/
theorem getCadastreLayers_spec (parcels : List CadastreParcel)
    (q : GeospatialQuery) :
    (parcels = [] → getCadastreLayers parcels q = []) ∧
    (parcels ≠ [] →
      getCadastreLayers parcels q =
        [{ id := "cadastre-parcels", name := "Cadastral parcels",
           type := "cadastre", visible := true, opacity := 4/10,
           commune := q.filters.bind (fun f => f.commune),
           geoData := { type := "FeatureCollection",
                        features := parcels.map parcelToFeature } }]) ∧
    (parcels.map parcelToFeature).length = parcels.length ∧
    (∀ p, (parcelToFeature p).properties = some
      { id := some p.id, type := some "cadastre",
        parcelNumber := some p.reference, area := some p.area,
        landUse := some p.landUse, owner := p.owner }) := by
  refine ⟨?_, ?_, by simp, fun p => rfl⟩
  · intro h; subst h; rfl
  · intro h
    unfold getCadastreLayers
    rw [if_neg (by simpa [List.length_eq_zero, List.map_eq_nil_iff] using h)]

theorem getCadastreLayers_spec_witness :
    getCadastreLayers [] sampleQuery = [] ∧
    (([sampleParcel] : List CadastreParcel) ≠ []) ∧
    getCadastreLayers [sampleParcel] sampleQuery =
      [{ id := "cadastre-parcels", name := "Cadastral parcels",
         type := "cadastre", visible := true, opacity := 4/10,
         commune := sampleQuery.filters.bind (fun f => f.commune),
         geoData := { type := "FeatureCollection",
                      features := [sampleParcel].map parcelToFeature } }] :=
  ⟨(getCadastreLayers_spec [] sampleQuery).1 rfl, by decide,
   (getCadastreLayers_spec [sampleParcel] sampleQuery).2.1 (by decide)⟩

/-- Claim C8: a forest-fetch response whose body is absent or lacks the
features key resolves to the empty FeatureCollection; the embedding is a
total function, so no exception reaches the caller. -/
theorem getForestData_malformed_to_empty (e : String) (body : RawForestBody) :
    getForestData (.err e) = emptyFeatureCollection ∧
    getForestData (.ok none) = emptyFeatureCollection ∧
    (body.features = none →
      getForestData (.ok (some body)) = emptyFeatureCollection) ∧
    emptyFeatureCollection = { type := "FeatureCollection", features := [] } := by
  refine ⟨rfl, rfl, ?_, rfl⟩
  intro h
  obtain ⟨t, feats⟩ := body
  simp only [RawForestBody.features] at h
  subst h
  rfl

theorem getForestData_malformed_to_empty_witness :
    getForestData (.err "network timeout") = emptyFeatureCollection ∧
    getForestData (.ok none) = emptyFeatureCollection ∧
    sampleRawBodyNoFeatures.features = none ∧
    getForestData (.ok (some sampleRawBodyNoFeatures)) = emptyFeatureCollection :=
  ⟨(getForestData_malformed_to_empty "network timeout" sampleRawBodyNoFeatures).1,
   (getForestData_malformed_to_empty "network timeout" sampleRawBodyNoFeatures).2.1,
   rfl,
   (getForestData_malformed_to_empty "network timeout" sampleRawBodyNoFeatures).2.2.1 rfl⟩

/-- Claim C9, code bug: the register operation posts to /auth/register,
but the body it builds holds only the email and password fields of the
credentials; two credential records differing only in name produce the
identical request, so the name field required by RegisterCredentials and
collected by the registration form is never sent, contrary to the claim
that the body contains name, email and password. -/
theorem register_omits_name :
    registerRequest { name := "Alice"
                      email := "alice@example.com"
                      password := "secret123" } =
      registerRequest { name := "Bob"
                        email := "alice@example.com"
                        password := "secret123" } ∧
    ("Alice" : String) ≠ "Bob" ∧
    (registerRequest { name := "Alice"
                       email := "alice@example.com"
                       password := "secret123" }).1 = "/auth/register" ∧
    (registerRequest { name := "Alice"
                       email := "alice@example.com"
                       password := "secret123" }).2 =
      { email := "alice@example.com", password := "secret123" } := by
  refine ⟨rfl, by decide, rfl, rfl⟩

/-- Claim C10: toggling a layer id twice returns the visible set
unchanged, one application flips exactly the membership of the toggled id,
and the membership of every other id is untouched. -/
theorem toggleLayer_involutive (s : Finset String) (x y : String)
    (hxy : y ≠ x) :
    toggleLayer (toggleLayer s x) x = s ∧
    (x ∈ toggleLayer s x ↔ x ∉ s) ∧
    (y ∈ toggleLayer s x ↔ y ∈ s) := by
  have h1 : ∀ t : Finset String, x ∈ toggleLayer t x ↔ x ∉ t := by
    intro t
    unfold toggleLayer
    split
    · simp [Finset.mem_erase]; assumption
    · simp; assumption
  have h2 : y ∈ toggleLayer s x ↔ y ∈ s := by
    unfold toggleLayer
    split
    · simp [Finset.mem_erase, hxy]
    · simp [Finset.mem_insert, hxy]
  have h3 : toggleLayer (toggleLayer s x) x = s := by
    unfold toggleLayer
    by_cases hx : x ∈ s
    · rw [if_pos hx, if_neg (Finset.not_mem_erase x s), Finset.insert_erase hx]
    · rw [if_neg hx, if_pos (Finset.mem_insert_self x s), Finset.erase_insert hx]
  exact ⟨h3, h1 s, h2⟩

theorem toggleLayer_involutive_witness :
    ("a" : String) ≠ "b" ∧
    (toggleLayer (toggleLayer {"a"} "b") "b" = {"a"} ∧
      ("b" ∈ toggleLayer {"a"} "b" ↔ "b" ∉ ({"a"} : Finset String)) ∧
      ("a" ∈ toggleLayer {"a"} "b" ↔ "a" ∈ ({"a"} : Finset String))) :=
  ⟨by decide, toggleLayer_involutive {"a"} "b" "a" (by decide)⟩


theorem seenDedup_not_mem_seen (l : List String) :
    ∀ seen x, x ∈ seenDedup seen l → x ∉ seen := by
  induction l with
  | nil => intro seen x hx; simp [seenDedup] at hx
  | cons k rest ih =>
    intro seen x hx
    by_cases hk : k ∈ seen
    · rw [seenDedup, if_pos hk] at hx
      exact ih seen x hx
    · rw [seenDedup, if_neg hk] at hx
      rcases List.mem_cons.mp hx with h | h
      · subst h; exact hk
      · intro hxs
        exact (ih _ x h) (List.mem_append_left _ hxs)

theorem insertFeature_not_mem (f : Feature) (k : String) :
    ∀ m : List (String × List Feature), k ∉ m.map Prod.fst →
      insertFeature m k f = m ++ [(k, [f])] := by
  intro m
  induction m with
  | nil => intro _; rfl
  | cons e rest ih =>
    intro hk
    obtain ⟨k1, v⟩ := e
    simp only [List.map_cons, List.mem_cons, not_or] at hk
    rw [insertFeature, if_neg (Ne.symm hk.1)]
    simp [ih hk.2]

theorem insertFeature_keys (f : Feature) (k : String) :
    ∀ m : List (String × List Feature),
      (insertFeature m k f).map Prod.fst =
        if k ∈ m.map Prod.fst then m.map Prod.fst
        else m.map Prod.fst ++ [k] := by
  intro m
  induction m with
  | nil => simp [insertFeature]
  | cons e rest ih =>
    obtain ⟨k1, v⟩ := e
    by_cases hk : k1 = k
    · subst hk
      rw [insertFeature, if_pos rfl]
      simp
    · rw [insertFeature, if_neg hk]
      simp only [List.map_cons, ih, List.mem_cons]
      by_cases hmem : k ∈ rest.map Prod.fst
      · rw [if_pos hmem, if_pos (Or.inr hmem)]
      · rw [if_neg hmem, if_neg ?_]
        · simp
        · rintro (h | h)
          · exact hk h.symm
          · exact hmem h

theorem addMatches_not_match (f : Feature) (rest : List Feature)
    (e : String × List Feature) (h : speciesKey f ≠ e.1) :
    addMatches (f :: rest) e = addMatches rest e := by
  unfold addMatches
  simp [List.filter_cons, h]

theorem insertFeature_map_addMatches (f : Feature) (rest : List Feature) :
    ∀ m : List (String × List Feature), (m.map Prod.fst).Nodup →
      speciesKey f ∈ m.map Prod.fst →
      (insertFeature m (speciesKey f) f).map (addMatches rest) =
        m.map (addMatches (f :: rest)) := by
  intro m
  induction m with
  | nil => intro _ h; simp at h
  | cons e tail ih =>
    intro hnd hmem
    obtain ⟨k1, v⟩ := e
    simp only [List.map_cons, List.nodup_cons] at hnd
    by_cases hk : k1 = speciesKey f
    · rw [insertFeature, if_pos hk]
      simp only [List.map_cons]
      congr 1
      · unfold addMatches
        simp only [List.filter_cons, hk]
        rw [if_pos (by simp [hk])]
        simp
      · apply List.map_congr_left
        intro e2 he2
        refine (addMatches_not_match f rest e2 ?_).symm
        intro hcontra
        apply hnd.1
        rw [hk, hcontra]
        exact List.mem_map_of_mem Prod.fst he2
    · rw [insertFeature, if_neg hk]
      simp only [List.map_cons]
      have hmem2 : speciesKey f ∈ tail.map Prod.fst := by
        rcases List.mem_cons.mp hmem with h | h
        · exact absurd h.symm hk
        · exact h
      congr 1
      · exact (addMatches_not_match f rest (k1, v) (fun h => hk h.symm)).symm
      · exact ih hnd.2 hmem2

theorem foldl_insertFeature_spec :
    ∀ (fs : List Feature) (m : List (String × List Feature)),
      (m.map Prod.fst).Nodup →
      fs.foldl (fun acc g => insertFeature acc (speciesKey g) g) m =
        m.map (addMatches fs) ++
          (seenDedup (m.map Prod.fst) (fs.map speciesKey)).map
            (fun k => (k, fs.filter (fun g => decide (speciesKey g = k)))) := by
  intro fs
  induction fs with
  | nil =>
    intro m hnd
    clear hnd
    have hm : List.map (addMatches []) m = m := by
      induction m with
      | nil => rfl
      | cons e t iht =>
        simp only [List.map_cons, iht]
        congr 1
        simp [addMatches]
    simp [seenDedup, hm]
  | cons f rest ih =>
    intro m hnd
    simp only [List.foldl_cons, List.map_cons]
    by_cases hmem : speciesKey f ∈ m.map Prod.fst
    · have hkeys : (insertFeature m (speciesKey f) f).map Prod.fst =
          m.map Prod.fst := by
        rw [insertFeature_keys]
        exact if_pos hmem
      rw [ih (insertFeature m (speciesKey f) f) (by rw [hkeys]; exact hnd),
        hkeys, insertFeature_map_addMatches f rest m hnd hmem,
        seenDedup, if_pos hmem]
      congr 1
      apply List.map_congr_left
      intro k hk
      have hnotin := seenDedup_not_mem_seen _ _ _ hk
      have hne : ¬(speciesKey f = k) := fun h => hnotin (h ▸ hmem)
      simp [List.filter_cons, hne]
    · have hins : insertFeature m (speciesKey f) f = m ++ [(speciesKey f, [f])] :=
        insertFeature_not_mem f (speciesKey f) m hmem
      have hkeys : (insertFeature m (speciesKey f) f).map Prod.fst =
          m.map Prod.fst ++ [speciesKey f] := by
        rw [hins]; simp
      have hnd2 : ((insertFeature m (speciesKey f) f).map Prod.fst).Nodup := by
        rw [hkeys]
        simp [List.nodup_append, hnd, hmem]
      rw [ih _ hnd2, hkeys, hins, seenDedup, if_neg hmem]
      rw [List.map_append, List.map_cons]
      have hhead : m.map (addMatches rest) = m.map (addMatches (f :: rest)) := by
        apply List.map_congr_left
        intro e he
        refine (addMatches_not_match f rest e ?_).symm
        intro hcontra
        apply hmem
        rw [hcontra]
        exact List.mem_map_of_mem Prod.fst he
      have hone : addMatches rest (speciesKey f, [f]) =
          (speciesKey f, (f :: rest).filter
            (fun g => decide (speciesKey g = speciesKey f))) := by
        unfold addMatches
        simp [List.filter_cons]
      have htail : (seenDedup (m.map Prod.fst ++ [speciesKey f])
            (rest.map speciesKey)).map
            (fun k => (k, rest.filter (fun g => decide (speciesKey g = k)))) =
          (seenDedup (m.map Prod.fst ++ [speciesKey f])
            (rest.map speciesKey)).map
            (fun k => (k, (f :: rest).filter
              (fun g => decide (speciesKey g = k)))) := by
        apply List.map_congr_left
        intro k hk
        have hnotin := seenDedup_not_mem_seen _ _ _ hk
        have hne : ¬(speciesKey f = k) := by
          intro h
          exact hnotin (h ▸ List.mem_append_right _ (List.mem_singleton.mpr rfl))
        simp [List.filter_cons, hne]
      rw [hhead, hone, htail]
      simp [List.append_assoc]

/-- Claim C4: layer assembly emits exactly one ForestLayer per distinct
raw species value in first-encounter order, features missing the species
property falling into the single unknown bucket, each layer holding exactly
the features of its group; the three-feature example with two Quercus robur
features and one Fagus sylvatica feature yields exactly two layers with two
and one features. -/
theorem getForestLayers_one_layer_per_species :
    (∀ features : List Feature,
      getForestLayers features =
        (firstDedup (features.map speciesKey)).map
          (fun k => mkForestLayer k
            (features.filter (fun f => decide (speciesKey f = k))))) ∧
    (getForestLayers exampleForestFeatures).length = 2 ∧
    (getForestLayers exampleForestFeatures).map
        (fun l => l.geoData.features.length) = [2, 1] ∧
    (getForestLayers exampleForestFeatures).map ForestLayer.id =
      ["forest-quercus_robur", "forest-fagus_sylvatica"] := by
  refine ⟨?_, by decide, by decide, by decide⟩
  intro features
  unfold getForestLayers groupBySpecies firstDedup
  rw [foldl_insertFeature_spec features [] (by simp)]
  simp [List.map_map, Function.comp]


theorem mem_collapseRunsAux (p : Char → Bool) (rep : Char) :
    ∀ (l : List Char) (b : Bool) (x : Char),
      x ∈ collapseRunsAux p rep l b → x ∈ l ∨ x = rep := by
  intro l
  induction l with
  | nil => intro b x hx; simp [collapseRunsAux] at hx
  | cons c rest ih =>
    intro b x hx
    by_cases hc : p c = true
    · cases b with
      | true =>
        rw [collapseRunsAux, if_pos hc, if_pos rfl] at hx
        rcases ih true x hx with h | h
        · exact Or.inl (List.mem_cons_of_mem c h)
        · exact Or.inr h
      | false =>
        rw [collapseRunsAux, if_pos hc] at hx
        rw [if_neg (by simp)] at hx
        rcases List.mem_cons.mp hx with h | h
        · exact Or.inr h
        · rcases ih true x h with h2 | h2
          · exact Or.inl (List.mem_cons_of_mem c h2)
          · exact Or.inr h2
    · rw [collapseRunsAux, if_neg hc] at hx
      rcases List.mem_cons.mp hx with h | h
      · exact Or.inl (h ▸ List.mem_cons_self c rest)
      · rcases ih false x h with h2 | h2
        · exact Or.inl (List.mem_cons_of_mem c h2)
        · exact Or.inr h2

theorem collapseRunsAux_head_true (p : Char → Bool) (rep : Char) :
    ∀ (l : List Char) (x : Char),
      (collapseRunsAux p rep l true).head? = some x → p x = false := by
  intro l
  induction l with
  | nil => intro x hx; simp [collapseRunsAux] at hx
  | cons c rest ih =>
    intro x hx
    by_cases hc : p c = true
    · rw [collapseRunsAux, if_pos hc, if_pos rfl] at hx
      exact ih x hx
    · rw [collapseRunsAux, if_neg hc] at hx
      obtain rfl : c = x := by simpa using hx
      exact Bool.not_eq_true _ |>.mp hc

theorem collapseRunsAux_true_eq_false (p : Char → Bool) (rep : Char)
    (l : List Char) (hl : ∀ x, l.head? = some x → p x = false) :
    collapseRunsAux p rep l true = collapseRunsAux p rep l false := by
  cases l with
  | nil => rfl
  | cons c rest =>
    have hc : p c = false := hl c rfl
    rw [collapseRunsAux, collapseRunsAux, if_neg (by simp [hc]),
      if_neg (by simp [hc])]

theorem noTwoAdjacent_cons_of (p : Char → Bool) (a : Char) (l : List Char)
    (hl : noTwoAdjacent p l)
    (h : ∀ x, l.head? = some x → ¬(p a = true ∧ p x = true)) :
    noTwoAdjacent p (a :: l) := by
  cases l with
  | nil => trivial
  | cons b rest => exact ⟨h b rfl, hl⟩

theorem noTwoAdjacent_tail (p : Char → Bool) (c : Char) (l : List Char)
    (h : noTwoAdjacent p (c :: l)) : noTwoAdjacent p l := by
  cases l with
  | nil => trivial
  | cons b t => exact h.2

theorem noTwoAdjacent_collapseRunsAux (p : Char → Bool) (rep : Char) :
    ∀ (l : List Char) (b : Bool),
      noTwoAdjacent p (collapseRunsAux p rep l b) := by
  intro l
  induction l with
  | nil => intro b; trivial
  | cons c rest ih =>
    intro b
    by_cases hc : p c = true
    · cases b with
      | true =>
        rw [collapseRunsAux, if_pos hc, if_pos rfl]
        exact ih true
      | false =>
        rw [collapseRunsAux, if_pos hc, if_neg (by simp)]
        refine noTwoAdjacent_cons_of p rep _ (ih true) ?_
        intro x hx hand
        have := collapseRunsAux_head_true p rep rest x hx
        rw [this] at hand
        exact absurd hand.2 (by simp)
    · rw [collapseRunsAux, if_neg hc]
      refine noTwoAdjacent_cons_of p c _ (ih false) ?_
      intro x _ hand
      exact hc hand.1

theorem collapseRunsAux_no_p_id (p : Char → Bool) (rep : Char) :
    ∀ (l : List Char) (b : Bool), (∀ c ∈ l, p c = false) →
      collapseRunsAux p rep l b = l := by
  intro l
  induction l with
  | nil => intro b _; rfl
  | cons c rest ih =>
    intro b h
    have hc : p c = false := h c (List.mem_cons_self c rest)
    rw [collapseRunsAux, if_neg (by simp [hc])]
    rw [ih false (fun d hd => h d (List.mem_cons_of_mem c hd))]

theorem collapseRuns_underscore_id :
    ∀ l : List Char, noTwoAdjacent (fun c => c == '_') l →
      collapseRuns (fun c => c == '_') '_' l = l := by
  intro l
  induction l with
  | nil => intro _; rfl
  | cons c rest ih =>
    intro h
    by_cases hc : (fun c => c == '_') c = true
    · have hc2 : c = '_' := by simpa using hc
      have hhead : ∀ x, rest.head? = some x →
          (fun c => c == '_') x = false := by
        intro x hx
        cases rest with
        | nil => simp at hx
        | cons b t =>
          obtain rfl : b = x := by simpa using hx
          have h1 := h.1
          subst hc2
          simp only [beq_self_eq_true, true_and] at h1
          simpa using h1
      rw [collapseRuns, collapseRunsAux, if_pos hc, if_neg (by simp)]
      rw [collapseRunsAux_true_eq_false _ _ rest hhead]
      have htail := noTwoAdjacent_tail _ c rest h
      have := ih htail
      rw [collapseRuns] at this
      rw [this, hc2]
    · rw [collapseRuns, collapseRunsAux, if_neg hc]
      have htail := noTwoAdjacent_tail _ c rest h
      have := ih htail
      rw [collapseRuns] at this
      rw [this]

theorem isIdChar_ranges (c : Char) (h : isIdChar c = true) :
    (97 ≤ c.toNat ∧ c.toNat ≤ 122) ∨ (48 ≤ c.toNat ∧ c.toNat ≤ 57) ∨
      c.toNat = 95 := by
  simpa [isIdChar, Bool.or_eq_true, Bool.and_eq_true, decide_eq_true_eq,
    or_assoc] using h

theorem jsToLowerChar_id_of_isIdChar (c : Char) (h : isIdChar c = true) :
    jsToLowerChar c = c := by
  have h2 := isIdChar_ranges c h
  unfold jsToLowerChar
  rw [if_neg (by omega)]

theorem jsIsSpace_false_of_isIdChar (c : Char) (h : isIdChar c = true) :
    jsIsSpace c = false := by
  have h2 := isIdChar_ranges c h
  rw [Bool.eq_false_iff]
  intro hs
  simp only [jsIsSpace, Bool.or_eq_true, Bool.and_eq_true,
    decide_eq_true_eq] at hs
  omega

theorem dropLeadingUnderscore_id (l : List Char)
    (h : ∀ x, l.head? = some x → x ≠ '_') :
    dropLeadingUnderscore l = l := by
  cases l with
  | nil => rfl
  | cons c rest => rw [dropLeadingUnderscore, if_neg (h c rfl)]

theorem dropTrailingUnderscore_id (l : List Char)
    (h : ∀ x, l.getLast? = some x → x ≠ '_') :
    dropTrailingUnderscore l = l := by
  unfold dropTrailingUnderscore
  rw [dropLeadingUnderscore_id l.reverse ?_, List.reverse_reverse]
  intro x hx
  exact h x (by rwa [List.head?_reverse] at hx)

theorem dropLeadingUnderscore_suffix (l : List Char) :
    ∃ t, t ++ dropLeadingUnderscore l = l := by
  cases l with
  | nil => exact ⟨[], rfl⟩
  | cons c rest =>
    by_cases hc : c = '_'
    · exact ⟨[c], by rw [dropLeadingUnderscore, if_pos hc]; subst hc; rfl⟩
    · exact ⟨[], by rw [dropLeadingUnderscore, if_neg hc]; rfl⟩

theorem dropTrailingUnderscore_prefix (l : List Char) :
    ∃ t, dropTrailingUnderscore l ++ t = l := by
  obtain ⟨t, ht⟩ := dropLeadingUnderscore_suffix l.reverse
  refine ⟨t.reverse, ?_⟩
  unfold dropTrailingUnderscore
  calc (dropLeadingUnderscore l.reverse).reverse ++ t.reverse
      = (t ++ dropLeadingUnderscore l.reverse).reverse := by
        rw [List.reverse_append]
    _ = l.reverse.reverse := by rw [ht]
    _ = l := List.reverse_reverse l

theorem noTwoAdjacent_iff_chain (p : Char → Bool) :
    ∀ l : List Char, noTwoAdjacent p l ↔
      List.Chain' (fun a b => ¬(p a = true ∧ p b = true)) l := by
  intro l
  induction l with
  | nil => simp [noTwoAdjacent]
  | cons a rest ih =>
    cases rest with
    | nil => simp [noTwoAdjacent]
    | cons b t =>
      rw [List.chain'_cons]
      exact and_congr Iff.rfl ih

theorem dropLeadingUnderscore_head (l : List Char)
    (h : noTwoAdjacent (fun c => c == '_') l) :
    ∀ x, (dropLeadingUnderscore l).head? = some x → x ≠ '_' := by
  cases l with
  | nil => intro x hx; simp [dropLeadingUnderscore] at hx
  | cons c rest =>
    intro x hx
    by_cases hc : c = '_'
    · rw [dropLeadingUnderscore, if_pos hc] at hx
      cases rest with
      | nil => simp at hx
      | cons b t =>
        obtain rfl : b = x := by simpa using hx
        intro hx2
        subst hx2
        subst hc
        exact h.1 (by simp)
    · rw [dropLeadingUnderscore, if_neg hc] at hx
      obtain rfl : c = x := by simpa using hx
      exact hc

theorem normalizeChars_normal (l : List Char) :
    (∀ x ∈ normalizeChars l, isIdChar x = true) ∧
    noTwoAdjacent (fun c => c == '_') (normalizeChars l) ∧
    (∀ x, (normalizeChars l).head? = some x → x ≠ '_') ∧
    (∀ x, (normalizeChars l).getLast? = some x → x ≠ '_') := by
  set w := (collapseRuns jsIsSpace '_' (l.map jsToLowerChar)).filter isIdChar
    with hw
  set z := collapseRuns (fun c => c == '_') '_' w with hz
  set y := dropLeadingUnderscore z with hy
  have hnorm : normalizeChars l = dropTrailingUnderscore y := rfl
  have hzmem : ∀ x ∈ z, isIdChar x = true := by
    intro x hx
    rcases mem_collapseRunsAux _ _ w false x hx with h | h
    · exact List.of_mem_filter h
    · subst h; decide
  have hzadj : noTwoAdjacent (fun c => c == '_') z :=
    noTwoAdjacent_collapseRunsAux _ _ w false
  obtain ⟨t1, ht1⟩ := dropLeadingUnderscore_suffix z
  obtain ⟨t2, ht2⟩ := dropTrailingUnderscore_prefix y
  have hymem : ∀ x ∈ y, x ∈ z := by
    intro x hx
    rw [← ht1]
    exact List.mem_append_right t1 hx
  have hyadj : noTwoAdjacent (fun c => c == '_') y := by
    rw [noTwoAdjacent_iff_chain] at hzadj ⊢
    exact hzadj.suffix ⟨t1, ht1⟩
  have hyhead : ∀ x, y.head? = some x → x ≠ '_' :=
    dropLeadingUnderscore_head z hzadj
  have hrmem : ∀ x ∈ dropTrailingUnderscore y, x ∈ y := by
    intro x hx
    rw [← ht2]
    exact List.mem_append_left t2 hx
  have hradj : noTwoAdjacent (fun c => c == '_') (dropTrailingUnderscore y) := by
    rw [noTwoAdjacent_iff_chain] at hyadj ⊢
    exact hyadj.prefix ⟨t2, ht2⟩
  have hrhead : ∀ x, (dropTrailingUnderscore y).head? = some x → x ≠ '_' := by
    intro x hx
    apply hyhead x
    rw [← ht2]
    cases hcase : dropTrailingUnderscore y with
    | nil => rw [hcase] at hx; simp at hx
    | cons c rr =>
      rw [hcase] at hx
      simp only [List.cons_append, List.head?_cons]
      simpa using hx
  have hrlast : ∀ x, (dropTrailingUnderscore y).getLast? = some x → x ≠ '_' := by
    intro x hx
    unfold dropTrailingUnderscore at hx
    rw [List.getLast?_reverse] at hx
    have hyrev : noTwoAdjacent (fun c => c == '_') y.reverse := by
      rw [noTwoAdjacent_iff_chain] at hyadj ⊢
      rw [List.chain'_reverse]
      exact hyadj.imp (fun a b hab => fun hc => hab ⟨hc.2, hc.1⟩)
    exact dropLeadingUnderscore_head y.reverse hyrev x hx
  rw [hnorm]
  exact ⟨fun x hx => hzmem x (hymem x (hrmem x hx)), hradj, hrhead, hrlast⟩

theorem normalizeChars_idem (l : List Char) :
    normalizeChars (normalizeChars l) = normalizeChars l := by
  obtain ⟨hall, hadj, hhead, hlast⟩ := normalizeChars_normal l
  have s1 : (normalizeChars l).map jsToLowerChar = normalizeChars l := by
    have hcongr : (normalizeChars l).map jsToLowerChar =
        (normalizeChars l).map id :=
      List.map_congr_left
        (fun c hc => jsToLowerChar_id_of_isIdChar c (hall c hc))
    rw [hcongr, List.map_id]
  have s2 : collapseRuns jsIsSpace '_' (normalizeChars l) = normalizeChars l :=
    collapseRunsAux_no_p_id jsIsSpace '_' (normalizeChars l) false
      (fun c hc => jsIsSpace_false_of_isIdChar c (hall c hc))
  have s3 : (normalizeChars l).filter isIdChar = normalizeChars l :=
    List.filter_eq_self.mpr hall
  have s4 : collapseRuns (fun c => c == '_') '_' (normalizeChars l) =
      normalizeChars l :=
    collapseRuns_underscore_id (normalizeChars l) hadj
  have s5 : dropLeadingUnderscore (normalizeChars l) = normalizeChars l :=
    dropLeadingUnderscore_id (normalizeChars l) hhead
  have s6 : dropTrailingUnderscore (normalizeChars l) = normalizeChars l :=
    dropTrailingUnderscore_id (normalizeChars l) hlast
  calc normalizeChars (normalizeChars l)
      = dropTrailingUnderscore (dropLeadingUnderscore (
          collapseRuns (fun c => c == '_') '_' (
            (collapseRuns jsIsSpace '_'
              ((normalizeChars l).map jsToLowerChar)).filter isIdChar))) := rfl
    _ = normalizeChars l := by rw [s1, s2, s3, s4, s5, s6]

/-- Claim C5: species-id normalization is idempotent, normalizing an
already normalized string returns it unchanged, and the Pinus sylvestris
examples normalize as the spec states. -/
theorem normalizeSpeciesToId_idempotent :
    (∀ s : String,
      normalizeSpeciesToId (normalizeSpeciesToId s) = normalizeSpeciesToId s) ∧
    normalizeSpeciesToId "Pinus sylvestris" = "pinus_sylvestris" ∧
    normalizeSpeciesToId "pinus_sylvestris" = "pinus_sylvestris" := by
  refine ⟨?_, by decide, by decide⟩
  intro s
  exact congrArg String.mk (normalizeChars_idem s.data)

end Geo
